import Mathlib

/-!
Verification development for the oxidio playback engine and playlist queue.

The Rust source (crates/oxidio-core) is shallowly embedded:

* `Playlist` (playlist.rs) — tracks are a `List α`, machine integers are `Nat`.
  `regenerate_shuffle_order` uses a `RandomState` hasher; the hash function is
  taken as an explicit parameter `hfn : Nat → Nat` (the source hashes the loop
  index `i`), so the Fisher–Yates pass itself is embedded faithfully and every
  operation stays executable.
* M3U persistence (`save`/`load`) is embedded at the character level: the file
  is a `List Char`, `BufRead::lines` is a split on `'\n'`, and `str::trim` is
  dropping whitespace on both ends.
* `SampleBuffer` (output.rs) — f32 samples are modelled as exact rationals;
  `f32::sqrt` (used only for the visualization RMS) is taken as a parameter.
  `pop` writes a fully determined output slice, returned as a list; a Rust
  panic (integer division by zero in the general remix branch) is modelled as
  `Option.none`.
* `Player` (player.rs) — the session bookkeeping of `play`/`stop`/`seek` is
  embedded as pure state passing; the outcomes of the IO actions
  (`Decoder::open`, `AudioOutput::new`) are explicit parameters.
-/

namespace OxCore

/-- Repeat mode for the playlist (`RepeatMode` in playlist.rs; `repeat` is a
Lean keyword, so the field below is named `repeatMode`). -/
inductive RepeatMode where
  | off
  | one
  | all
deriving DecidableEq, Repr

/-- Playlist/queue manager (struct `Playlist` in playlist.rs). Track paths are
an arbitrary type `α` (`PathBuf` in the source). -/
structure Playlist (α : Type) where
  tracks : List α
  current_index : Option Nat
  shuffle : Bool
  repeatMode : RepeatMode
  shuffle_order : List Nat
  shuffle_position : Nat
deriving DecidableEq, Repr

namespace Playlist

/-- `Playlist::new` / `Playlist::default`. -/
def new (α : Type) : Playlist α :=
  { tracks := [], current_index := none, shuffle := false,
    repeatMode := .off, shuffle_order := [], shuffle_position := 0 }

/-- `Vec::swap` on the shuffle order (both indices are always in bounds at
the call sites, so the fallthrough arm is never taken). -/
def swapIdx (l : List Nat) (i j : Nat) : List Nat :=
  match l[i]?, l[j]? with
  | some a, some b => (l.set i b).set j a
  | _, _ => l

/-- The Fisher–Yates loop of `regenerate_shuffle_order`: for `i` from the top
index down to `1`, swap position `i` with `hfn i % (i + 1)`. `hfn i` models
hashing `i` with the freshly built `RandomState` hasher. -/
def fyDown (hfn : Nat → Nat) : Nat → List Nat → List Nat
  | 0, l => l
  | i + 1, l => fyDown hfn i (swapIdx l (i + 1) (hfn (i + 1) % (i + 1 + 1)))

/-- `Playlist::regenerate_shuffle_order`: reset the order to `0..len`, run the
Fisher–Yates pass, reset the cursor to `0`. -/
def regenerate_shuffle_order (hfn : Nat → Nat) (p : Playlist α) : Playlist α :=
  { p with
    shuffle_order := fyDown hfn (p.tracks.length - 1) (List.range p.tracks.length),
    shuffle_position := 0 }

/-- `Playlist::add`: push the path at the end, regenerate the shuffle order. -/
def add (hfn : Nat → Nat) (p : Playlist α) (path : α) : Playlist α :=
  regenerate_shuffle_order hfn { p with tracks := p.tracks ++ [path] }

/-- `Playlist::current`: `current_index.and_then(|i| tracks.get(i))`. -/
def current (p : Playlist α) : Option α :=
  p.current_index.bind fun i => p.tracks[i]?

/-- `Playlist::remove`: out-of-range index is a no-op returning `None`;
otherwise remove the element, shift `current_index` left if it was after the
removed slot, clear it if the removed slot was the current one, then
regenerate the shuffle order. -/
def remove (hfn : Nat → Nat) (p : Playlist α) (index : Nat) :
    Option α × Playlist α :=
  if p.tracks.length ≤ index then (none, p)
  else
    let removed := p.tracks[index]?
    let ci : Option Nat :=
      match p.current_index with
      | none => none
      | some current =>
        if index < current then some (current - 1)
        else if index = current then none
        else some current
    (removed,
      regenerate_shuffle_order hfn
        { p with tracks := p.tracks.eraseIdx index, current_index := ci })

/-- `Playlist::next`. Returns the produced track (if any) and the mutated
playlist. In the shuffle branch the cursor increment happens before the
early `return None`, so that state change is kept. The source's
`unreachable!()` arm (repeat `One` inside the non-shuffle `Off | All` arm)
cannot be taken because the outer match already sent `One` elsewhere; the
embedding branches on `repeatMode = .all` there, which agrees on the two
reachable modes. -/
def next (hfn : Nat → Nat) (p : Playlist α) : Option α × Playlist α :=
  if p.tracks.isEmpty then (none, p)
  else if p.shuffle then
    let pos := p.shuffle_position + 1
    if p.shuffle_order.length ≤ pos then
      match p.repeatMode with
      | .off => (none, { p with shuffle_position := pos })
      | .all =>
        let q := regenerate_shuffle_order hfn { p with shuffle_position := pos }
        let q2 := { q with current_index := q.shuffle_order[q.shuffle_position]? }
        (q2.current, q2)
      | .one =>
        let q := { p with shuffle_position := pos - 1,
                          current_index := p.shuffle_order[pos - 1]? }
        (q.current, q)
    else
      let q := { p with shuffle_position := pos,
                        current_index := p.shuffle_order[pos]? }
      (q.current, q)
  else
    match p.repeatMode with
    | .one =>
      let q := { p with current_index := p.current_index }
      (q.current, q)
    | _ =>
      let cur := p.current_index.getD 0
      let nxt := cur + 1
      if p.tracks.length ≤ nxt then
        if p.repeatMode = .all then
          let q := { p with current_index := some 0 }
          (q.current, q)
        else (none, p)
      else
        let q := { p with current_index := some nxt }
        (q.current, q)

/-- `Playlist::previous`. The shuffle branch moves the cursor back (when it is
positive) or re-reads the first shuffled slot; the plain branch steps the
index back, wrapping to the last slot only under repeat `All`. -/
def previous (p : Playlist α) : Option α × Playlist α :=
  if p.tracks.isEmpty then (none, p)
  else if p.shuffle then
    if 0 < p.shuffle_position then
      let pos := p.shuffle_position - 1
      let q := { p with shuffle_position := pos,
                        current_index := p.shuffle_order[pos]? }
      (q.current, q)
    else
      let q := { p with current_index := p.shuffle_order.head? }
      (q.current, q)
  else
    let cur := p.current_index.getD 0
    let pi : Option Nat :=
      if 0 < cur then some (cur - 1)
      else if p.repeatMode = .all then some (p.tracks.length - 1)
      else some 0
    let q := { p with current_index := pi }
    (q.current, q)

/-- `Playlist::jump_to`. -/
def jump_to (p : Playlist α) (index : Nat) : Option α × Playlist α :=
  if index < p.tracks.length then
    let q := { p with current_index := some index }
    (q.current, q)
  else (none, p)

/-- `Playlist::set_shuffle`: regenerates the order only when turning shuffle
on. -/
def set_shuffle (hfn : Nat → Nat) (p : Playlist α) (b : Bool) : Playlist α :=
  if b ≠ p.shuffle then
    if b then regenerate_shuffle_order hfn { p with shuffle := b }
    else { p with shuffle := b }
  else p

/-- `Playlist::set_repeat`. -/
def set_repeat (p : Playlist α) (r : RepeatMode) : Playlist α :=
  { p with repeatMode := r }

/-- `Playlist::move_track`: bounds-checked, removes at `fromIdx`, inserts at
`toIdx`, remaps `current_index`. The `none` arm of the inner match cannot be
taken (`fromIdx` is in range). -/
def move_track (hfn : Nat → Nat) (p : Playlist α) (fromIdx toIdx : Nat) :
    Bool × Playlist α :=
  if p.tracks.length ≤ fromIdx ∨ p.tracks.length ≤ toIdx then (false, p)
  else if fromIdx = toIdx then (true, p)
  else
    match p.tracks[fromIdx]? with
    | none => (false, p)
    | some track =>
      let tracks2 := (p.tracks.eraseIdx fromIdx).insertIdx toIdx track
      let ci : Option Nat :=
        match p.current_index with
        | none => none
        | some current =>
          if current = fromIdx then some toIdx
          else if fromIdx < current ∧ current ≤ toIdx then some (current - 1)
          else if toIdx ≤ current ∧ current < fromIdx then some (current + 1)
          else some current
      (true,
        regenerate_shuffle_order hfn
          { p with tracks := tracks2, current_index := ci })

end Playlist

/-- A structural playlist mutation, for stating the claim about all sequences
of `add`/`remove`/`move_track`. -/
inductive PlOp (α : Type) where
  | add (x : α)
  | remove (i : Nat)
  | move (fromIdx toIdx : Nat)
deriving DecidableEq, Repr

/-- Apply one mutation (the returned `Option`/`Bool` results are dropped). -/
def applyOp (hfn : Nat → Nat) (p : Playlist α) : PlOp α → Playlist α
  | .add x => p.add hfn x
  | .remove i => (p.remove hfn i).2
  | .move f t => (p.move_track hfn f t).2

/-- Apply a whole sequence of mutations, first element first. -/
def applySeq (hfn : Nat → Nat) (p : Playlist α) (ops : List (PlOp α)) :
    Playlist α :=
  ops.foldl (applyOp hfn) p

/-! ### M3U persistence (`Playlist::save` / `Playlist::load`)

The file is a `List Char`.  `save` writes the `#EXTM3U` header line and then
one `track.display()` line per track.  `load` iterates `BufRead::lines`
(split on `'\n'`; the trailing-`'\r'` strip of `lines` is subsumed by the
`trim` that follows), trims each line, skips empty and `'#'`-prefixed lines,
and `add`s each remaining line. -/

/-- The fixed M3U header line. -/
def headerChars : List Char := "#EXTM3U".toList

/-- The file produced by `Playlist::save`: header line, then each track path
followed by a newline. -/
def saveChars (tracks : List (List Char)) : List Char :=
  headerChars ++ '\n' :: (tracks.map (fun t => t ++ ['\n'])).flatten

/-- Split a character stream into lines at `'\n'` (as `BufRead::lines`; a
trailing newline yields a final empty line, which `load` skips anyway). -/
def splitOnNl : List Char → List (List Char)
  | [] => [[]]
  | c :: rest =>
    if c = '\n' then [] :: splitOnNl rest
    else
      match splitOnNl rest with
      | [] => [[c]]
      | line :: lines => (c :: line) :: lines

/-- Rust `char::is_whitespace`: the Unicode `White_Space` property —
U+0009–U+000D, U+0020, U+0085, U+00A0, U+1680, U+2000–U+200A, U+2028,
U+2029, U+202F, U+205F, U+3000. (Lean's `Char.isWhitespace` covers only the
ASCII subset, so the full set is spelled out.) -/
def isRustWhitespace (c : Char) : Bool :=
  (0x9 ≤ c.toNat && c.toNat ≤ 0xD) || c.toNat = 0x20 || c.toNat = 0x85 ||
  c.toNat = 0xA0 || c.toNat = 0x1680 ||
  (0x2000 ≤ c.toNat && c.toNat ≤ 0x200A) || c.toNat = 0x2028 ||
  c.toNat = 0x2029 || c.toNat = 0x202F || c.toNat = 0x205F ||
  c.toNat = 0x3000

/-- `str::trim`: drop Unicode whitespace from both ends. -/
def trimChars (l : List Char) : List Char :=
  ((l.dropWhile isRustWhitespace).reverse.dropWhile isRustWhitespace).reverse

/-- `starts_with('#')`. -/
def startsWithHash : List Char → Bool
  | '#' :: _ => true
  | _ => false

/-- A trimmed line survives `load` when it is neither empty nor a comment. -/
def keepLine (t : List Char) : Bool :=
  !(t.isEmpty || startsWithHash t)

/-- The ordered track list `Playlist::load` reads from a file. -/
def loadTracks (content : List Char) : List (List Char) :=
  ((splitOnNl content).map trimChars).filter keepLine

/-- `Playlist::load`: start from `Playlist::new` and `add` every kept line. -/
def loadPlaylist (hfn : Nat → Nat) (content : List Char) :
    Playlist (List Char) :=
  (loadTracks content).foldl (fun pl t => pl.add hfn t) (Playlist.new _)

/-! ### SampleBuffer (output.rs) -/

/-- `VIS_BARS`. -/
def VIS_BARS : Nat := 32

/-- `SampleBuffer` (output.rs): f32 samples as exact rationals, the `VecDeque`
as a list whose head is the queue front. The mutex/atomics only guard the
cross-thread access of these same fields. -/
structure SampleBuffer where
  buffer : List ℚ
  capacity : Nat
  paused : Bool
  volume : ℚ
  source_channels : Nat
  output_channels : Nat
  vis_data : List ℚ
deriving DecidableEq, Repr

namespace SampleBuffer

/-- `SampleBuffer::new`. -/
def new (capacity source_channels output_channels : Nat) : SampleBuffer :=
  { buffer := [], capacity, paused := false, volume := 1,
    source_channels, output_channels,
    vis_data := List.replicate VIS_BARS 0 }

/-- The visualization pass of `push` (run when at least `VIS_BARS` samples
were accepted): per bar, the RMS of its slice of the accepted samples,
exponentially smoothed into the previous bar value. `sqrtFn` models
`f32::sqrt`. -/
def visUpdate (sqrtFn : ℚ → ℚ) (vis : List ℚ) (samples : List ℚ)
    (to_push : Nat) : List ℚ :=
  let samples_per_bar := to_push / VIS_BARS
  vis.enum.map fun bi =>
    let start := bi.1 * samples_per_bar
    let e := min (start + samples_per_bar) to_push
    let seg := (samples.drop start).take (e - start)
    let sum_sq := (seg.map fun s => s * s).sum
    let rms := sqrtFn (sum_sq / ((e - start : Nat) : ℚ))
    bi.2 * (7/10) + rms * (3/10)

/-- `SampleBuffer::push`: accept as many samples as fit in the remaining
capacity (`saturating_sub` is `Nat` subtraction), append them at the back,
update the visualization when enough were accepted, return the count. -/
def push (sqrtFn : ℚ → ℚ) (st : SampleBuffer) (samples : List ℚ) :
    Nat × SampleBuffer :=
  let available := st.capacity - st.buffer.length
  let to_push := min samples.length available
  let buf2 := st.buffer ++ samples.take to_push
  let vis2 :=
    if VIS_BARS ≤ to_push then visUpdate sqrtFn st.vis_data samples to_push
    else st.vis_data
  (to_push, { st with buffer := buf2, vis_data := vis2 })

/-- Stereo-to-mono mixdown of an even-length sample run: `(l + r) * 0.5`. -/
def mixStereo : List ℚ → List ℚ
  | a :: b :: rest => (a + b) * (1/2) :: mixStereo rest
  | _ => []

/-- One output frame of the general remix branch: copy matching source
channels, duplicate the last source channel into any extra output channels.
The frame always has `src_ch` elements at the call site, so the `getD`
defaults are never used. -/
def remixFrame (src_ch out_ch : Nat) (srcFrame : List ℚ) : List ℚ :=
  (List.range out_ch).map fun ch =>
    if ch < src_ch then srcFrame.getD ch 0 else srcFrame.getD (src_ch - 1) 0

/-- The general remix branch over `frames` frames of the queue. -/
def remixTake (src_ch out_ch : Nat) : Nat → List ℚ → List ℚ
  | 0, _ => []
  | f + 1, buf =>
    remixFrame src_ch out_ch (buf.take src_ch) ++
      remixTake src_ch out_ch f (buf.drop src_ch)

/-- The final volume pass of `pop`: multiplied into the written span only,
and skipped entirely when the volume is exactly `1.0`. -/
def applyVolume (volume : ℚ) (written : Nat) (out : List ℚ) : List ℚ :=
  if volume ≠ 1 then (out.take written).map (fun s => s * volume) ++ out.drop written
  else out

/-- `SampleBuffer::pop` over an output slice of length `outLen`. The result is
`(count_written, output slice contents, new buffer state)`; every branch fully
overwrites the slice (written prefix plus zero fill), so the slice contents
are a function of the state. `none` models the Rust panic: in the general
remix branch the source divides by both channel counts
(`output.len() / out_ch`, `buf.len() / src_ch`), which panics when either is
zero. -/
def pop (st : SampleBuffer) (outLen : Nat) :
    Option (Nat × List ℚ × SampleBuffer) :=
  if st.paused then
    some (0, List.replicate outLen 0, st)
  else
    let volume := st.volume
    let src_ch := st.source_channels
    let out_ch := st.output_channels
    if src_ch = out_ch then
      let to_pop := min outLen st.buffer.length
      let out := st.buffer.take to_pop ++ List.replicate (outLen - to_pop) 0
      some (to_pop, applyVolume volume to_pop out,
        { st with buffer := st.buffer.drop to_pop })
    else if src_ch = 1 ∧ out_ch = 2 then
      let frames := min (outLen / 2) st.buffer.length
      let out := (st.buffer.take frames).flatMap (fun s => [s, s]) ++
        List.replicate (outLen - frames * 2) 0
      some (frames * 2, applyVolume volume (frames * 2) out,
        { st with buffer := st.buffer.drop frames })
    else if src_ch = 2 ∧ out_ch = 1 then
      let frames := min outLen (st.buffer.length / 2)
      let out := mixStereo (st.buffer.take (frames * 2)) ++
        List.replicate (outLen - frames) 0
      some (frames, applyVolume volume frames out,
        { st with buffer := st.buffer.drop (frames * 2) })
    else if src_ch = 0 ∨ out_ch = 0 then none
    else
      let frames := min (outLen / out_ch) (st.buffer.length / src_ch)
      let out := remixTake src_ch out_ch frames st.buffer ++
        List.replicate (outLen - frames * out_ch) 0
      some (frames * out_ch, applyVolume volume (frames * out_ch) out,
        { st with buffer := st.buffer.drop (frames * src_ch) })

end SampleBuffer

/-! ### Player session model (player.rs) -/

/-- `PlaybackState`. -/
inductive PlaybackState where
  | stopped
  | playing
  | paused
deriving DecidableEq, Repr

/-- `PlayerError` (the message payloads are dropped). -/
inductive PlayerError where
  | fileOpen
  | decode
  | output
  | noTrack
deriving DecidableEq, Repr

/-- What a successful `Decoder::open` (plus its queries) yields. -/
structure DecInfo where
  sample_rate : Nat
  channels : Nat
  duration : Option ℚ
deriving DecidableEq, Repr

/-- What a successful `AudioOutput::new` reports about the device config. -/
structure OutInfo where
  sample_rate : Nat
  channels : Nat
deriving DecidableEq, Repr

/-- `PlaybackHandle` (the thread/stream handles are OS resources whose only
observable session state is captured by the remaining fields). -/
structure PlaybackHandle where
  stop_flag : Bool
  sample_buffer : SampleBuffer
  frames_played : Nat
  sample_rate : Nat
  duration : Option ℚ
  track_ended : Bool
deriving DecidableEq, Repr

/-- The `Player` state: playback state, current track, playlist, optional
session handle, stored volume. -/
structure PlayerModel (α : Type) where
  state : PlaybackState
  current_track : Option α
  playlist : Playlist α
  playback : Option PlaybackHandle
  volume : ℚ
deriving DecidableEq, Repr

namespace PlayerModel

/-- `Player::stop`: tear down the session (stop flag, buffer clear, thread
join, stream drop — all on the discarded handle), set state `Stopped`, clear
the current track. -/
def stop (p : PlayerModel α) : PlayerModel α :=
  { p with playback := none, state := .stopped, current_track := none }

/-- `Player::play(path)`: stop the prior session first; then the decoder open
(`openRes`, `none` models any open-time failure) and the device-output
creation (`outRes`) each abort with the error, leaving the stopped state.  On
success, build the sample buffer (`rate × channels / 2`, source vs device
channels), apply the stored volume, start the frame counter at `0`, record
the session, set state `Playing`.  Failures of `output.play()` or of the
resampler construction exit exactly like an `outRes` failure. -/
def play (p : PlayerModel α) (path : α) (openRes : Option DecInfo)
    (outRes : Option OutInfo) : PlayerModel α × Except PlayerError Unit :=
  let p1 := stop p
  match openRes with
  | none => (p1, .error .fileOpen)
  | some dec =>
    match outRes with
    | none => (p1, .error .output)
    | some outCfg =>
      let sb0 := SampleBuffer.new (dec.sample_rate * dec.channels / 2)
        dec.channels outCfg.channels
      let sb := { sb0 with volume := p1.volume }
      let handle : PlaybackHandle :=
        { stop_flag := false, sample_buffer := sb, frames_played := 0,
          sample_rate := dec.sample_rate, duration := dec.duration,
          track_ended := false }
      ({ p1 with playback := some handle, current_track := some path,
                 state := .playing }, .ok ())

/-- `Player::seek(position)` (`position` in seconds): require a current track;
remember whether state was `Playing`; fully stop; reopen (`openRes`) and
reposition (`seekOk`) the decoder, each failure aborting with the stopped
state; rebuild output and buffer as in `play` but initialize the frame
counter to `(position × source_rate) as u64` (truncation of a nonnegative
value, i.e. the floor) and start the buffer paused when the prior state was
not `Playing`; restore the prior logical state. -/
def seek (p : PlayerModel α) (position : ℚ) (openRes : Option DecInfo)
    (seekOk : Bool) (outRes : Option OutInfo) :
    PlayerModel α × Except PlayerError Unit :=
  match p.current_track with
  | none => (p, .error .noTrack)
  | some track =>
    let was_playing := p.state = .playing
    let p1 := stop p
    match openRes with
    | none => (p1, .error .fileOpen)
    | some dec =>
      if !seekOk then (p1, .error .decode)
      else
        match outRes with
        | none => (p1, .error .output)
        | some outCfg =>
          let sb0 := SampleBuffer.new (dec.sample_rate * dec.channels / 2)
            dec.channels outCfg.channels
          let sb1 := { sb0 with volume := p1.volume }
          let seek_frames := ((position * (dec.sample_rate : ℚ)).floor).toNat
          let sb := if was_playing then sb1 else { sb1 with paused := true }
          let handle : PlaybackHandle :=
            { stop_flag := false, sample_buffer := sb,
              frames_played := seek_frames, sample_rate := dec.sample_rate,
              duration := dec.duration, track_ended := false }
          ({ p1 with playback := some handle, current_track := some track,
                     state := if was_playing then .playing else .paused },
            .ok ())

/-- `Player::position`: frames played divided by the source rate (zero when no
session exists). -/
def position (p : PlayerModel α) : ℚ :=
  match p.playback with
  | some h => (h.frames_played : ℚ) / (h.sample_rate : ℚ)
  | none => 0

end PlayerModel

/-! ### Concrete inputs used by witnesses and counterexamples -/

/-- A hash oracle for the Fisher–Yates pass: always `1`. -/
def hOne : Nat → Nat := fun _ => 1

/-- A hash oracle for the Fisher–Yates pass: always `0`. -/
def hZero : Nat → Nat := fun _ => 0

/-! ### Claim theorems -/

/-- **C9.** On a paused `SampleBuffer`, `pop` fills the whole output slice
with silence, returns 0, and leaves the entire buffer state — queued samples,
visualization data, volume — unchanged, so resuming continues from exactly
the samples buffered at pause time. -/
theorem c9_pop_paused (st : SampleBuffer) (outLen : Nat)
    (hp : st.paused = true) :
    st.pop outLen = some (0, List.replicate outLen 0, st) := by
  simp [SampleBuffer.pop, hp]

/-- A paused buffer holding two samples. -/
def c9buf : SampleBuffer :=
  { SampleBuffer.new 8 2 2 with paused := true, buffer := [1, 2] }

/-- Witness for **C9** on a concrete paused buffer. -/
theorem c9_pop_paused_witness :
    c9buf.paused = true ∧
    c9buf.pop 3 = some (0, List.replicate 3 0, c9buf) :=
  ⟨rfl, c9_pop_paused c9buf 3 rfl⟩

/-- **C3.** For a `SampleBuffer` of capacity `C` holding `L ≤ C` samples,
`push` accepts exactly `min (samples.length) (C - L)` samples, returns that
count, and never lets the buffer length exceed `C`. -/
theorem c3_push_capacity (sqrtFn : ℚ → ℚ) (st : SampleBuffer)
    (samples : List ℚ) (hcap : st.buffer.length ≤ st.capacity) :
    (st.push sqrtFn samples).1 =
      min samples.length (st.capacity - st.buffer.length) ∧
    (st.push sqrtFn samples).2.buffer.length =
      st.buffer.length + min samples.length (st.capacity - st.buffer.length) ∧
    (st.push sqrtFn samples).2.buffer.length ≤ st.capacity := by
  refine ⟨rfl, ?_, ?_⟩
  all_goals simp [SampleBuffer.push, List.length_take]
  all_goals omega

set_option maxRecDepth 4000 in
/-- Witness for **C3**: the spec's scenario — capacity 100, empty buffer,
pushing 150 samples returns 100 and leaves buffer length 100. -/
theorem c3_push_capacity_witness :
    (SampleBuffer.new 100 1 2).buffer.length ≤ (SampleBuffer.new 100 1 2).capacity ∧
    ((SampleBuffer.new 100 1 2).push id (List.replicate 150 0)).1 = 100 ∧
    ((SampleBuffer.new 100 1 2).push id (List.replicate 150 0)).2.buffer.length = 100 ∧
    ((SampleBuffer.new 100 1 2).push id (List.replicate 150 0)).2.buffer.length ≤ 100 := by
  have h := c3_push_capacity id (SampleBuffer.new 100 1 2)
    (List.replicate 150 0) (by decide)
  exact ⟨by decide, h.1.trans (by decide), (h.2.1).trans (by decide), h.2.2⟩

/-- **C4 (amended).** `pop` on an empty, unpaused buffer whose source and
output channel counts are both nonzero writes silence to the whole output
slice, returns 0, does not panic, and leaves the state unchanged — in every
channel-conversion branch. -/
theorem c4_pop_empty_silence (st : SampleBuffer) (outLen : Nat)
    (hp : st.paused = false) (hb : st.buffer = [])
    (hs : st.source_channels ≠ 0) (ho : st.output_channels ≠ 0) :
    st.pop outLen = some (0, List.replicate outLen 0, st) := by
  obtain ⟨buf, cap, paused, vol, src, outc, vis⟩ := st
  simp only at hp hb hs ho
  subst hp hb
  simp only [SampleBuffer.pop, SampleBuffer.applyVolume, SampleBuffer.remixTake,
    List.length_nil, Nat.min_zero, Nat.zero_div, Nat.zero_min, List.take_nil,
    List.drop_nil, List.nil_append, List.flatMap_nil, List.map_nil,
    List.take_zero, List.drop_zero, Nat.zero_mul, Nat.mul_zero, Nat.sub_zero,
    SampleBuffer.mixStereo, ite_self, Bool.false_eq_true, if_false]
  split_ifs <;> simp_all

/-- An empty, unpaused buffer with 2 source and 4 output channels (general
remix branch). -/
def c4buf : SampleBuffer := SampleBuffer.new 100 2 4

/-- Witness for **C4 (amended)** on the general remix branch. -/
theorem c4_pop_empty_silence_witness :
    c4buf.paused = false ∧ c4buf.buffer = [] ∧ c4buf.source_channels ≠ 0 ∧
    c4buf.output_channels ≠ 0 ∧
    c4buf.pop 5 = some (0, List.replicate 5 0, c4buf) :=
  ⟨rfl, rfl, by decide, by decide,
    c4_pop_empty_silence c4buf 5 rfl rfl (by decide) (by decide)⟩

/-- Counterexample for **C4** as stated: with `source_channels = 0` and
`output_channels = 1` the general remix branch divides `buf.len()` by the
zero source-channel count, so `pop` panics even on an empty, unpaused buffer
with a nonzero output channel count. -/
theorem c4_counterexample :
    (SampleBuffer.new 100 0 1).paused = false ∧
    (SampleBuffer.new 100 0 1).buffer = [] ∧
    (SampleBuffer.new 100 0 1).output_channels ≠ 0 ∧
    (SampleBuffer.new 100 0 1).pop 4 = none := by
  decide

/-- **C5.** Mono-to-stereo: for an unpaused buffer with
`source_channels = 1`, `output_channels = 2`, volume `1.0`, holding `N`
samples, `pop` over an output slice of length `2N` writes the `N` interleaved
pairs `(s, s)` in order, returns `2N`, and drains the queue. -/
theorem c5_mono_to_stereo (st : SampleBuffer)
    (hsrc : st.source_channels = 1) (hout : st.output_channels = 2)
    (hp : st.paused = false) (hv : st.volume = 1) :
    st.pop (2 * st.buffer.length) =
      some (2 * st.buffer.length, st.buffer.flatMap (fun s => [s, s]),
        { st with buffer := [] }) := by
  obtain ⟨buf, cap, paused, vol, src, outc, vis⟩ := st
  simp only at hsrc hout hp hv
  subst hsrc hout hp hv
  have h2 : 2 * buf.length / 2 = buf.length :=
    Nat.mul_div_cancel_left _ (by norm_num)
  simp [SampleBuffer.pop, SampleBuffer.applyVolume, h2, List.take_length,
    List.drop_length, Nat.mul_comm]

/-- **C1 (amended).** With repeat mode `One` and shuffle off, for every
playlist with a current track, `next()` returns the same track that was
current before the call and leaves the playlist — in particular the current
track — unchanged. (As the counterexample shows, the original claim fails
for `previous()` and for shuffle-on mode.) -/
theorem c1_repeat_one_next {α : Type} (hfn : Nat → Nat) (p : Playlist α)
    (t : α) (hsh : p.shuffle = false) (hrep : p.repeatMode = .one)
    (hcur : p.current = some t) :
    (p.next hfn).1 = some t ∧ (p.next hfn).2 = p := by
  obtain ⟨tr, ci, sh, rm, so, sp⟩ := p
  dsimp only at hsh hrep hcur
  subst hsh hrep
  simp only [Playlist.current, Option.bind_eq_some] at hcur
  obtain ⟨i, hci, hti⟩ := hcur
  subst hci
  have hlt : i < tr.length := by
    by_contra hge
    rw [List.getElem?_eq_none (Nat.le_of_not_lt hge)] at hti
    exact Option.noConfusion hti
  have hne : tr.isEmpty = false :=
    List.isEmpty_eq_false.mpr (List.ne_nil_of_length_pos (Nat.lt_of_le_of_lt (Nat.zero_le _) hlt))
  constructor <;>
    simp [Playlist.next, hne, Playlist.current, hti]

/-- The playlist `["a", "b"]` with repeat `One`, shuffle off, current track
`"b"` (built through the public API; `hOne` stands for the random hasher). -/
def c1prev : Playlist String :=
  (((((Playlist.new String).add hOne "a").add hOne "b").set_repeat
    .one).jump_to 1).2

/-- The playlist `["a", "b"]` with repeat `One`, shuffle on, shuffle order
`[0, 1]`, cursor at 0, current track `"a"` (built through the public API;
with the hasher `hOne` the Fisher–Yates pass leaves `[0, 1]` in place). -/
def c1shuf : Playlist String :=
  ((((((Playlist.new String).add hOne "a").add hOne "b").set_shuffle hOne
    true).set_repeat .one).jump_to 0).2

/-- Counterexample for **C1** as stated: with repeat `One` and shuffle off,
`previous()` on current track `"b"` returns `"a"` and moves the current
index; and with shuffle on, `next()` on current track `"a"` returns `"b"`.
So neither `previous()` (shuffle off or on) nor shuffle-on `next()` returns
the pre-call current track unchanged. -/
theorem c1_counterexample :
    c1prev.shuffle = false ∧ c1prev.repeatMode = .one ∧
    c1prev.current = some "b" ∧
    (Playlist.previous c1prev).1 = some "a" ∧
    (Playlist.previous c1prev).2.current_index = some 0 ∧
    c1shuf.shuffle = true ∧ c1shuf.repeatMode = .one ∧
    c1shuf.current = some "a" ∧
    (Playlist.next hOne c1shuf).1 = some "b" := by
  decide

/-- The playlist `["a"]` with repeat `One`, shuffle off, current `"a"`. -/
def c1wit : Playlist String :=
  ((((Playlist.new String).add hOne "a").set_repeat .one).jump_to 0).2

/-- Witness for **C1 (amended)** on a concrete one-track playlist. -/
theorem c1_repeat_one_next_witness :
    c1wit.shuffle = false ∧ c1wit.repeatMode = .one ∧
    c1wit.current = some "a" ∧
    (c1wit.next hOne).1 = some "a" ∧ (c1wit.next hOne).2 = c1wit :=
  ⟨rfl, rfl, by decide,
    (c1_repeat_one_next hOne c1wit "a" rfl rfl (by decide)).1,
    (c1_repeat_one_next hOne c1wit "a" rfl rfl (by decide)).2⟩

/-- **C10 (amended).** On a non-empty playlist whose state is well formed —
`current_index` (if set) in range, and, when shuffle is on, the shuffle order
of full length with in-range entries and the shuffle cursor at most the track
count — `previous()` always returns some track, never `None` (at the first
track or shuffle-cursor 0 it re-yields a track rather than `None`). The
cursor bound is needed: `next()` past the end with repeat `Off` pushes the
cursor beyond the order, as the counterexample shows. -/
theorem c10_previous_some {α : Type} (p : Playlist α)
    (hne : p.tracks ≠ [])
    (hci : ∀ c, p.current_index = some c → c < p.tracks.length)
    (hord : p.shuffle = true →
      p.shuffle_order.length = p.tracks.length ∧
      p.shuffle_position ≤ p.tracks.length ∧
      ∀ i ∈ p.shuffle_order, i < p.tracks.length) :
    ∃ t, (Playlist.previous p).1 = some t := by
  have hlen : 0 < p.tracks.length := List.length_pos.mpr hne
  have hemp : p.tracks.isEmpty = false := List.isEmpty_eq_false.mpr hne
  cases hs : p.shuffle with
  | true =>
    obtain ⟨hl, hpos, hmem⟩ := hord hs
    by_cases hpp : 0 < p.shuffle_position
    · have hidx : p.shuffle_position - 1 < p.shuffle_order.length := by omega
      obtain ⟨j, hj⟩ : ∃ j, p.shuffle_order[p.shuffle_position - 1]? = some j := by
        rw [List.getElem?_eq_getElem hidx]; exact ⟨_, rfl⟩
      have hjlt : j < p.tracks.length := hmem _ (List.getElem?_mem hj)
      refine ⟨p.tracks.get ⟨j, hjlt⟩, ?_⟩
      simp [Playlist.previous, hemp, hs, hpp, Playlist.current, hj,
        List.getElem?_eq_getElem hjlt]
    · obtain ⟨j, hj⟩ : ∃ j, p.shuffle_order.head? = some j := by
        cases ho : p.shuffle_order with
        | nil => simp [ho] at hl; omega
        | cons a l => exact ⟨a, rfl⟩
      have hjmem : j ∈ p.shuffle_order := List.mem_of_mem_head? (by simp [hj])
      have hjlt : j < p.tracks.length := hmem _ hjmem
      refine ⟨p.tracks.get ⟨j, hjlt⟩, ?_⟩
      simp [Playlist.previous, hemp, hs, hpp, Playlist.current, hj,
        List.getElem?_eq_getElem hjlt]
  | false =>
    rcases hcc : p.current_index with _ | c
    · refine ⟨?_, ?_⟩
      · exact if p.repeatMode = .all then p.tracks.get ⟨p.tracks.length - 1, by omega⟩
          else p.tracks.get ⟨0, hlen⟩
      · by_cases hra : p.repeatMode = .all <;>
          simp [Playlist.previous, hemp, hs, hcc, hra, Playlist.current,
            List.getElem?_eq_getElem]
    · have hclt := hci c hcc
      by_cases hc0 : 0 < c
      · refine ⟨p.tracks.get ⟨c - 1, by omega⟩, ?_⟩
        simp [Playlist.previous, hemp, hs, hcc, hc0, Playlist.current,
          List.getElem?_eq_getElem]
      · refine ⟨?_, ?_⟩
        · exact if p.repeatMode = .all then p.tracks.get ⟨p.tracks.length - 1, by omega⟩
            else p.tracks.get ⟨0, hlen⟩
        · by_cases hra : p.repeatMode = .all <;>
            simp [Playlist.previous, hemp, hs, hcc, hc0, hra, Playlist.current,
              List.getElem?_eq_getElem]

/-- The playlist `["a"]`, shuffle on, after two `next()` calls with repeat
`Off` have pushed the shuffle cursor to 2, past the one-element order. -/
def c10state : Playlist String :=
  (Playlist.next hZero (Playlist.next hZero
    (((Playlist.new String).add hZero "a").set_shuffle hZero true)).2).2

/-- Counterexample for **C10** as stated: on the non-empty playlist above
(reached through the public API), `previous()` returns `None`: the cursor
moves back from 2 to 1, which is still past the end of the one-element
shuffle order, so the lookup fails and the current index is cleared. -/
theorem c10_counterexample :
    c10state.tracks = ["a"] ∧
    (Playlist.previous c10state).1 = none := by
  decide

/-- A well-formed two-track shuffled playlist. -/
def c10wit : Playlist String :=
  { tracks := ["a", "b"], current_index := some 0, shuffle := true,
    repeatMode := .off, shuffle_order := [1, 0], shuffle_position := 1 }

/-- Witness for **C10 (amended)** on a concrete shuffled playlist. -/
theorem c10_previous_some_witness :
    c10wit.tracks ≠ [] ∧ c10wit.current_index = some 0 ∧
    (∃ t, (Playlist.previous c10wit).1 = some t) :=
  ⟨by decide, rfl,
    c10_previous_some c10wit (by decide)
      (fun c hc => by
        have h0 : (0 : Nat) = c := Option.some.inj hc
        simp [c10wit]
        omega)
      (by decide)⟩

/-- A mono-source stereo-output buffer holding three samples. -/
def c5buf : SampleBuffer :=
  { SampleBuffer.new 100 1 2 with buffer := [1, 2, 3] }

/-- Witness for **C5** on a concrete three-sample buffer. -/
theorem c5_mono_to_stereo_witness :
    c5buf.source_channels = 1 ∧ c5buf.output_channels = 2 ∧
    c5buf.paused = false ∧ c5buf.volume = 1 ∧
    c5buf.pop 6 = some (6, [1, 1, 2, 2, 3, 3], { c5buf with buffer := [] }) :=
  ⟨rfl, rfl, rfl, rfl,
    (c5_mono_to_stereo c5buf rfl rfl rfl rfl).trans (by decide)⟩

/-- **C7.** A successful `seek(position)` issued while a track is loaded and
the state is `Playing` or `Paused` initializes the new session's frame
counter to `position × source_sample_rate` (the `as u64` truncation of that
nonnegative product, i.e. its floor) — so `position()` immediately reports
the corresponding value before any new samples are decoded — starts the new
`SampleBuffer` paused exactly when the pre-seek state was `Paused`, and
leaves the post-seek `PlaybackState` equal to the pre-seek state. -/
theorem c7_seek_session {α : Type} (p : PlayerModel α) (pos : ℚ)
    (dec : DecInfo) (outCfg : OutInfo) (t : α)
    (ht : p.current_track = some t)
    (hs : p.state = .playing ∨ p.state = .paused) :
    ((p.seek pos (some dec) true (some outCfg)).2 = .ok ()) ∧
    ∃ h, (p.seek pos (some dec) true (some outCfg)).1.playback = some h ∧
      h.frames_played = ((pos * (dec.sample_rate : ℚ)).floor).toNat ∧
      (h.sample_buffer.paused = true ↔ p.state = .paused) ∧
      (p.seek pos (some dec) true (some outCfg)).1.state = p.state ∧
      PlayerModel.position (p.seek pos (some dec) true (some outCfg)).1 =
        ((((pos * (dec.sample_rate : ℚ)).floor).toNat : ℚ) /
          (dec.sample_rate : ℚ)) := by
  rcases hs with h | h <;>
    simp [PlayerModel.seek, PlayerModel.stop, PlayerModel.position, ht, h,
      SampleBuffer.new]

/-- The session handle of the concrete pre-seek player below. -/
def c7handle : PlaybackHandle :=
  { stop_flag := false,
    sample_buffer := { (SampleBuffer.new 44100 2 2) with paused := true },
    frames_played := 7, sample_rate := 44100, duration := none,
    track_ended := false }

/-- A paused player with the track `"s.mp3"` loaded. -/
def c7pre : PlayerModel String :=
  { state := .paused, current_track := some "s.mp3",
    playlist := Playlist.new _, playback := some c7handle, volume := 1 }

/-- Witness for **C7**: seeking to 1.5 s at 44100 Hz from the paused state. -/
theorem c7_seek_session_witness :
    c7pre.current_track = some "s.mp3" ∧
    (c7pre.state = .playing ∨ c7pre.state = .paused) ∧
    (((c7pre.seek (3/2) (some ⟨44100, 2, none⟩) true (some ⟨44100, 2⟩)).2 =
        .ok ()) ∧
      ∃ h, (c7pre.seek (3/2) (some ⟨44100, 2, none⟩) true
            (some ⟨44100, 2⟩)).1.playback = some h ∧
        h.frames_played = ((((3:ℚ)/2) * ((44100:Nat) : ℚ)).floor).toNat ∧
        (h.sample_buffer.paused = true ↔ c7pre.state = .paused) ∧
        (c7pre.seek (3/2) (some ⟨44100, 2, none⟩) true
          (some ⟨44100, 2⟩)).1.state = c7pre.state ∧
        PlayerModel.position (c7pre.seek (3/2) (some ⟨44100, 2, none⟩) true
            (some ⟨44100, 2⟩)).1 =
          ((((((3:ℚ)/2) * ((44100:Nat) : ℚ)).floor).toNat : ℚ) /
            ((44100:Nat) : ℚ))) :=
  ⟨by decide, Or.inr (by decide),
    c7_seek_session c7pre (3/2) ⟨44100, 2, none⟩ ⟨44100, 2⟩ "s.mp3" (by decide)
      (Or.inr (by decide))⟩

/-- **C8.** When `play(path)` or `seek(position)` fails at open time (file
open, unsupported format, no audio track, decoder-init — all surfaced by
`Decoder::open`, modelled as `openRes = none`), the error is returned to the
caller, no playback session is created (the handle is `none`), and the
engine is `Stopped` with no current track, because the prior session was
fully torn down before the attempt: there is no half-initialized state.
This holds whatever the device-output stage would have reported. -/
theorem c8_open_failure {α : Type} (p q : PlayerModel α) (path : α)
    (pos : ℚ) (t : α) (outRes outRes2 : Option OutInfo)
    (ht : q.current_track = some t) :
    ((p.play path none outRes).2 = .error .fileOpen ∧
      (p.play path none outRes).1.playback = none ∧
      (p.play path none outRes).1.state = .stopped ∧
      (p.play path none outRes).1.current_track = none) ∧
    ((q.seek pos none true outRes2).2 = .error .fileOpen ∧
      (q.seek pos none true outRes2).1.playback = none ∧
      (q.seek pos none true outRes2).1.state = .stopped ∧
      (q.seek pos none true outRes2).1.current_track = none) := by
  simp [PlayerModel.play, PlayerModel.seek, PlayerModel.stop, ht]

/-- The session handle of the concrete pre-play player below. -/
def c8handle : PlaybackHandle :=
  { stop_flag := false, sample_buffer := SampleBuffer.new 44100 2 2,
    frames_played := 5, sample_rate := 44100, duration := none,
    track_ended := false }

/-- A playing player with the track `"t.flac"` loaded. -/
def c8pre : PlayerModel String :=
  { state := .playing, current_track := some "t.flac",
    playlist := Playlist.new _, playback := some c8handle, volume := 1 }

/-- Witness for **C8**: a failed open during `play` on a stopped player and
during `seek` on a playing player, both ending cleanly stopped. -/
theorem c8_open_failure_witness :
    c8pre.current_track = some "t.flac" ∧
    ((((PlayerModel.play (PlayerModel.stop c8pre) "u.mp3" none
        (some ⟨44100, 2⟩)).2 = .error .fileOpen) ∧
      (PlayerModel.play (PlayerModel.stop c8pre) "u.mp3" none
        (some ⟨44100, 2⟩)).1.playback = none ∧
      (PlayerModel.play (PlayerModel.stop c8pre) "u.mp3" none
        (some ⟨44100, 2⟩)).1.state = .stopped ∧
      (PlayerModel.play (PlayerModel.stop c8pre) "u.mp3" none
        (some ⟨44100, 2⟩)).1.current_track = none) ∧
     (((c8pre.seek 2 none true (some ⟨44100, 2⟩)).2 = .error .fileOpen) ∧
      (c8pre.seek 2 none true (some ⟨44100, 2⟩)).1.playback = none ∧
      (c8pre.seek 2 none true (some ⟨44100, 2⟩)).1.state = .stopped ∧
      (c8pre.seek 2 none true (some ⟨44100, 2⟩)).1.current_track = none)) :=
  ⟨by decide, c8_open_failure (PlayerModel.stop c8pre) c8pre "u.mp3" 2 "t.flac"
    (some ⟨44100, 2⟩) (some ⟨44100, 2⟩) (by decide)⟩

/-- Splitting a stream that starts with a newline-free line. -/
theorem splitOnNl_append_cons (t rest : List Char) (ht : '\n' ∉ t) :
    splitOnNl (t ++ '\n' :: rest) = t :: splitOnNl rest := by
  induction t with
  | nil => simp [splitOnNl]
  | cons c t ih =>
    have hc : c ≠ '\n' := fun h => ht (h ▸ List.mem_cons_self c t)
    have ht' : '\n' ∉ t := fun h => ht (List.mem_cons_of_mem _ h)
    simp [splitOnNl, hc, ih ht']

/-- Splitting the body of a saved playlist whose tracks are newline-free:
one line per track, plus the empty trailing fragment. -/
theorem splitOnNl_body (ts : List (List Char))
    (h : ∀ t ∈ ts, '\n' ∉ t) :
    splitOnNl ((ts.map (fun t => t ++ ['\n'])).flatten) = ts ++ [[]] := by
  induction ts with
  | nil => simp [splitOnNl]
  | cons t ts ih =>
    have h1 : '\n' ∉ t := h t (List.mem_cons_self t ts)
    have h2 : ∀ u ∈ ts, '\n' ∉ u := fun u hu => h u (List.mem_cons_of_mem _ hu)
    simp only [List.map_cons, List.flatten_cons, List.append_assoc,
      List.singleton_append]
    rw [splitOnNl_append_cons t _ h1, ih h2, List.cons_append]

/-- The tracks a fold of `add` accumulates. -/
theorem foldl_add_tracks (hfn : Nat → Nat) (l : List (List Char)) :
    ∀ acc : Playlist (List Char),
      (l.foldl (fun pl t => pl.add hfn t) acc).tracks = acc.tracks ++ l := by
  induction l with
  | nil => intro acc; simp
  | cons t l ih =>
    intro acc
    rw [List.foldl_cons, ih]
    simp [Playlist.add, Playlist.regenerate_shuffle_order]

/-- Trimmed, non-empty, non-comment lines pass the load filter unchanged. -/
theorem filter_trim_ok (ts : List (List Char))
    (hok : ∀ t ∈ ts, trimChars t = t ∧ t ≠ [] ∧ startsWithHash t = false) :
    (ts.map trimChars).filter keepLine = ts := by
  induction ts with
  | nil => rfl
  | cons t ts ih =>
    obtain ⟨htr, hne, hhash⟩ := hok t (List.mem_cons_self t ts)
    have hkeep : keepLine t = true := by
      simp [keepLine, hhash, List.isEmpty_eq_false.mpr hne]
    simp only [List.map_cons, List.filter_cons, htr, hkeep, if_true]
    rw [ih (fun u hu => hok u (List.mem_cons_of_mem _ hu))]

/-- **C6 (amended).** `save` followed by `load` yields an identical ordered
track-path list, provided every track path as written is non-empty, free of
leading/trailing whitespace, does not start with `'#'`, and contains no
newline. Comment lines (`'#'`-prefixed, including the written header) and
blank lines are ignored on load; every other line is read verbatim. (The
side conditions are necessary: the counterexample shows a path that itself
starts with `'#'` is silently dropped on load.) -/
theorem c6_save_load_roundtrip (hfn : Nat → Nat) (p : Playlist (List Char))
    (hok : ∀ t ∈ p.tracks, trimChars t = t ∧ t ≠ [] ∧
      startsWithHash t = false ∧ '\n' ∉ t) :
    (loadPlaylist hfn (saveChars p.tracks)).tracks = p.tracks := by
  rw [loadPlaylist, foldl_add_tracks]
  simp only [Playlist.new, List.nil_append]
  rw [loadTracks, saveChars, splitOnNl_append_cons _ _ (by decide),
    splitOnNl_body _ (fun t ht => (hok t ht).2.2.2)]
  simp [filter_trim_ok _ (fun t ht =>
      ⟨(hok t ht).1, (hok t ht).2.1, (hok t ht).2.2.1⟩),
    (by decide : keepLine (trimChars headerChars) = false),
    (by decide : keepLine (trimChars []) = false)]

/-- A track path that starts with `'#'`. -/
def hashTrack : List Char := ['#', 'x']

/-- A playlist holding exactly the `'#'`-prefixed track. -/
def c6bad : Playlist (List Char) := (Playlist.new _).add hZero hashTrack

/-- Counterexample for **C6** as stated: saving the playlist whose one track
path is `"#x"` and loading the file back yields an empty track list — the
saved line is indistinguishable from a comment, so the round trip loses it. -/
theorem c6_counterexample :
    c6bad.tracks = [hashTrack] ∧
    (loadPlaylist hZero (saveChars c6bad.tracks)).tracks = [] := by
  decide

/-- A playlist with two ordinary absolute paths. -/
def c6good : Playlist (List Char) :=
  (((Playlist.new _).add hZero "/a/b.mp3".toList).add hZero "/c d.flac".toList)

/-- Witness for **C6 (amended)** on a concrete two-track playlist. -/
theorem c6_save_load_roundtrip_witness :
    (∀ t ∈ c6good.tracks, trimChars t = t ∧ t ≠ [] ∧
      startsWithHash t = false ∧ '\n' ∉ t) ∧
    (loadPlaylist hZero (saveChars c6good.tracks)).tracks = c6good.tracks :=
  ⟨by decide, c6_save_load_roundtrip hZero c6good (by decide)⟩

/-- `getElem?` below the insertion point. -/
theorem getElem?_insertIdx_of_lt {α : Type} (l : List α) (x : α) (n k : Nat)
    (h : k < n) (hn : n ≤ l.length) : (l.insertIdx n x)[k]? = l[k]? := by
  have hk : k < l.length := Nat.lt_of_lt_of_le h hn
  have hk' : k < (l.insertIdx n x).length := by
    rw [List.length_insertIdx _ _ hn]; omega
  rw [List.getElem?_eq_getElem hk, List.getElem?_eq_getElem hk',
    List.getElem_insertIdx_of_lt l x n k h hk]

/-- `getElem?` at the insertion point. -/
theorem getElem?_insertIdx_self {α : Type} (l : List α) (x : α) (n : Nat)
    (hn : n ≤ l.length) : (l.insertIdx n x)[n]? = some x := by
  have hn' : n < (l.insertIdx n x).length := by
    rw [List.length_insertIdx _ _ hn]; omega
  rw [List.getElem?_eq_getElem hn', List.getElem_insertIdx_self l x n hn]

/-- `getElem?` above the insertion point. -/
theorem getElem?_insertIdx_of_gt {α : Type} (x : α) (n : Nat) :
    ∀ (l : List α) (k : Nat), n < k → n ≤ l.length →
      (l.insertIdx n x)[k]? = l[k - 1]? := by
  induction n with
  | zero =>
    intro l k h _
    cases k with
    | zero => omega
    | succ k => simp [List.insertIdx_zero]
  | succ n ih =>
    intro l k h hn
    cases l with
    | nil => simp at hn
    | cons a l =>
      cases k with
      | zero => omega
      | succ k =>
        rw [List.insertIdx_succ_cons, List.getElem?_cons_succ,
          ih l k (by omega) (by simp only [List.length_cons] at hn; omega)]
        cases k with
        | zero => omega
        | succ k => simp

/-- Each single `add`/`remove`/`move_track`: a set `current_index` keeps
denoting the same track value, unless the removed slot was exactly the
current one, in which case it becomes `none`. -/
theorem applyOp_current_stable {α : Type} (hfn : Nat → Nat) (p : Playlist α)
    (op : PlOp α) (c : Nat) (hc : p.current_index = some c)
    (hlen : c < p.tracks.length) :
    (op = PlOp.remove c ∧ (applyOp hfn p op).current_index = none) ∨
    (∃ c1, (applyOp hfn p op).current_index = some c1 ∧
      (applyOp hfn p op).tracks[c1]? = p.tracks[c]?) := by
  cases op with
  | add x =>
    right
    refine ⟨c, ?_, ?_⟩ <;>
      simp [applyOp, Playlist.add, Playlist.regenerate_shuffle_order, hc,
        List.getElem?_append_left hlen]
  | remove i =>
    by_cases hib : p.tracks.length ≤ i
    · right
      refine ⟨c, ?_, ?_⟩ <;> simp [applyOp, Playlist.remove, hib, hc]
    · push_neg at hib
      rcases Nat.lt_trichotomy i c with hic | hic | hic
      · right
        have h1 : ¬ p.tracks.length ≤ i := by omega
        refine ⟨c - 1, ?_, ?_⟩
        · simp [applyOp, Playlist.remove, h1, hc,
            Playlist.regenerate_shuffle_order, hic]
        · simp only [applyOp, Playlist.remove, h1, if_false, hc,
            Playlist.regenerate_shuffle_order]
          rw [List.getElem?_eraseIdx_of_ge _ _ _ (by omega)]
          congr 1
          omega
      · left
        subst hic
        have h1 : ¬ p.tracks.length ≤ i := by omega
        refine ⟨rfl, ?_⟩
        simp [applyOp, Playlist.remove, hc, Playlist.regenerate_shuffle_order,
          h1]
      · right
        have h1 : ¬ p.tracks.length ≤ i := by omega
        have h2 : ¬ i < c := by omega
        have h3 : ¬ i = c := by omega
        refine ⟨c, ?_, ?_⟩
        · simp [applyOp, Playlist.remove, h1, hc,
            Playlist.regenerate_shuffle_order, h2, h3]
        · simp only [applyOp, Playlist.remove, h1, if_false, hc,
            Playlist.regenerate_shuffle_order]
          rw [List.getElem?_eraseIdx_of_lt _ _ _ hic]
  | move f t =>
    by_cases hb : p.tracks.length ≤ f ∨ p.tracks.length ≤ t
    · right
      refine ⟨c, ?_, ?_⟩ <;> simp [applyOp, Playlist.move_track, hb, hc]
    · push_neg at hb
      obtain ⟨hf, ht⟩ := hb
      have hcond : ¬ (p.tracks.length ≤ f ∨ p.tracks.length ≤ t) := by omega
      by_cases hft : f = t
      · right
        have hlt2 : ¬ p.tracks.length ≤ t := by omega
        refine ⟨c, ?_, ?_⟩ <;>
          simp [applyOp, Playlist.move_track, hcond, hft, hc, hlt2]
      · obtain ⟨tr, htrk⟩ : ∃ tr, p.tracks[f]? = some tr := by
          rw [List.getElem?_eq_getElem hf]; exact ⟨_, rfl⟩
        have hlenE : (p.tracks.eraseIdx f).length = p.tracks.length - 1 :=
          List.length_eraseIdx_of_lt hf
        have htE : t ≤ (p.tracks.eraseIdx f).length := by omega
        have hred : applyOp hfn p (PlOp.move f t) =
            Playlist.regenerate_shuffle_order hfn
              { p with tracks := (p.tracks.eraseIdx f).insertIdx t tr,
                       current_index :=
                         if c = f then some t
                         else if f < c ∧ c ≤ t then some (c - 1)
                         else if t ≤ c ∧ c < f then some (c + 1)
                         else some c } := by
          simp [applyOp, Playlist.move_track, hcond, hft, htrk, hc]
        rw [hred]
        right
        simp only [Playlist.regenerate_shuffle_order]
        by_cases h1 : c = f
        · refine ⟨t, ?_, ?_⟩
          · simp [h1]
          · rw [getElem?_insertIdx_self _ _ _ htE, h1, htrk]
        · by_cases h2 : f < c ∧ c ≤ t
          · refine ⟨c - 1, ?_, ?_⟩
            · simp [h1, h2]
            · rw [getElem?_insertIdx_of_lt _ _ _ _ (by omega) htE,
                List.getElem?_eraseIdx_of_ge _ _ _ (by omega)]
              congr 1
              omega
          · by_cases h3 : t ≤ c ∧ c < f
            · refine ⟨c + 1, ?_, ?_⟩
              · simp [h1, h2, h3]
              · rw [getElem?_insertIdx_of_gt _ _ _ _ (by omega) htE]
                simp only [Nat.add_sub_cancel]
                rw [List.getElem?_eraseIdx_of_lt _ _ _ (by omega)]
            · refine ⟨c, ?_, ?_⟩
              · simp [h1, h2, h3]
              · by_cases h4 : c < f
                · have h5 : c < t := by omega
                  rw [getElem?_insertIdx_of_lt _ _ _ _ h5 htE,
                    List.getElem?_eraseIdx_of_lt _ _ _ h4]
                · have h6 : t < c := by omega
                  rw [getElem?_insertIdx_of_gt _ _ _ _ h6 htE,
                    List.getElem?_eraseIdx_of_ge _ _ _ (by omega)]
                  congr 1
                  omega

/-- A cleared `current_index` stays cleared across every mutation. -/
theorem applyOp_current_none {α : Type} (hfn : Nat → Nat) (p : Playlist α)
    (op : PlOp α) (hc : p.current_index = none) :
    (applyOp hfn p op).current_index = none := by
  cases op with
  | add x =>
    simp [applyOp, Playlist.add, Playlist.regenerate_shuffle_order, hc]
  | remove i =>
    by_cases hib : p.tracks.length ≤ i <;>
      simp [applyOp, Playlist.remove, hib, hc,
        Playlist.regenerate_shuffle_order]
  | move f t =>
    by_cases hb : p.tracks.length ≤ f ∨ p.tracks.length ≤ t
    · simp [applyOp, Playlist.move_track, hb, hc]
    · by_cases hft : f = t
      · have hlt2 : ¬ p.tracks.length ≤ t := by push_neg at hb; omega
        simp [applyOp, Playlist.move_track, hb, hft, hc, hlt2]
      · obtain ⟨tr, htrk⟩ : ∃ tr, p.tracks[f]? = some tr := by
          rw [List.getElem?_eq_getElem (by push_neg at hb; omega)]
          exact ⟨_, rfl⟩
        simp [applyOp, Playlist.move_track, hb, hft, hc, htrk,
          Playlist.regenerate_shuffle_order]

/-- `applyOp_current_none` extended along a whole sequence. -/
theorem applySeq_current_none {α : Type} (hfn : Nat → Nat)
    (ops : List (PlOp α)) :
    ∀ p : Playlist α, p.current_index = none →
      (applySeq hfn p ops).current_index = none := by
  induction ops with
  | nil => intro p hp; simpa [applySeq] using hp
  | cons op ops ih =>
    intro p hp
    rw [applySeq, List.foldl_cons]
    exact ih _ (applyOp_current_none hfn p op hp)

/-- Along any sequence of mutations, a still-set `current_index` denotes the
original current track value. -/
theorem applySeq_current_stable {α : Type} (hfn : Nat → Nat)
    (ops : List (PlOp α)) :
    ∀ (p : Playlist α) (c c2 : Nat), p.current_index = some c →
      c < p.tracks.length →
      (applySeq hfn p ops).current_index = some c2 →
      (applySeq hfn p ops).tracks[c2]? = p.tracks[c]? := by
  induction ops with
  | nil =>
    intro p c c2 hc hlen hseq
    simp only [applySeq, List.foldl_nil] at hseq ⊢
    rw [hc] at hseq
    cases hseq
    rfl
  | cons op ops ih =>
    intro p c c2 hc hlen hseq
    rw [applySeq, List.foldl_cons] at hseq ⊢
    rcases applyOp_current_stable hfn p op c hc hlen with ⟨_, hnone⟩ |
      ⟨c1, h1, h2⟩
    · have hall := applySeq_current_none hfn ops _ hnone
      rw [applySeq] at hall
      rw [hall] at hseq
      cases hseq
    · have hval : p.tracks[c]? ≠ none := by
        rw [List.getElem?_eq_getElem hlen]; simp
      have hc1lt : c1 < (applyOp hfn p op).tracks.length := by
        by_contra hge
        rw [List.getElem?_eq_none (Nat.le_of_not_lt hge)] at h2
        exact hval h2.symm
      have hrec := ih (applyOp hfn p op) c1 c2 h1 hc1lt
        (by rw [applySeq]; exact hseq)
      rw [applySeq] at hrec
      exact hrec.trans h2

/-- **C2.** For every sequence of `add`/`remove`/`move_track` mutations, a
set `current_index` keeps indexing the same track path it indexed before
each mutation (the index remapped as elements shift), except that removing
the exact element at `current_index` clears it to `None`: the first conjunct
states this per mutation (over every state, hence for each mutation of any
sequence), the second conjunct states it across the whole sequence. -/
theorem c2_current_index_invariant {α : Type} (hfn : Nat → Nat)
    (p : Playlist α) (op : PlOp α) (ops : List (PlOp α)) (c c2 : Nat)
    (hc : p.current_index = some c) (hlen : c < p.tracks.length)
    (hseq : (applySeq hfn p ops).current_index = some c2) :
    ((op = PlOp.remove c ∧ (applyOp hfn p op).current_index = none) ∨
      (∃ c1, (applyOp hfn p op).current_index = some c1 ∧
        (applyOp hfn p op).tracks[c1]? = p.tracks[c]?)) ∧
    (applySeq hfn p ops).tracks[c2]? = p.tracks[c]? :=
  ⟨applyOp_current_stable hfn p op c hc hlen,
    applySeq_current_stable hfn ops p c c2 hc hlen hseq⟩

/-- The playlist `["a", "b", "c"]` with current track `"b"` (index 1). -/
def c2wit : Playlist String :=
  { tracks := ["a", "b", "c"], current_index := some 1, shuffle := false,
    repeatMode := .off, shuffle_order := [0, 1, 2], shuffle_position := 0 }

/-- The mutation sequence used by the **C2** witness: append `"d"`, remove
the head, move the head to the back. It carries the current track `"b"` from
index 1 to index 2. -/
def c2ops : List (PlOp String) := [.add "d", .remove 0, .move 0 2]

/-- Witness for **C2**: the single mutation `move_track 0 2` and the
three-step sequence `c2ops`, both tracked on the concrete playlist. -/
theorem c2_current_index_invariant_witness :
    c2wit.current_index = some 1 ∧ 1 < c2wit.tracks.length ∧
    (applySeq hZero c2wit c2ops).current_index = some 2 ∧
    (((PlOp.move 0 2 : PlOp String) = PlOp.remove 1 ∧
        (applyOp hZero c2wit (PlOp.move 0 2)).current_index = none) ∨
      (∃ c1, (applyOp hZero c2wit (PlOp.move 0 2)).current_index = some c1 ∧
        (applyOp hZero c2wit (PlOp.move 0 2)).tracks[c1]? =
          c2wit.tracks[1]?)) ∧
    (applySeq hZero c2wit c2ops).tracks[2]? = c2wit.tracks[1]? :=
  ⟨rfl, by decide, by decide,
    (c2_current_index_invariant hZero c2wit (.move 0 2) c2ops 1 2 rfl
      (by decide) (by decide)).1,
    (c2_current_index_invariant hZero c2wit (.move 0 2) c2ops 1 2 rfl
      (by decide) (by decide)).2⟩

end OxCore
